import Mathlib

set_option maxRecDepth 8000

/-!
Shallow embedding of `bakkesmod_plugin_updater.pyw` (version 2.3.2).

File-system state is modelled as a predicate `Str → Bool` giving path
existence; strings are lists of characters so that the Python string
operations (`str.replace`, `str.split('=', 1)`, substring tests) can be
mirrored exactly.
-/

abbrev Str := List Char

/-- Python `s.replace(pat, rep)` on character lists, with explicit fuel
(one unit per character consumed); the scan is left-to-right and
non-overlapping, exactly as in CPython for a non-empty pattern. -/
def replaceFuel (pat rep : Str) : Nat → Str → Str
  | _, [] => []
  | 0, c :: cs => c :: cs
  | n + 1, c :: cs =>
    if pat ≠ [] ∧ pat.isPrefixOf (c :: cs) then
      rep ++ replaceFuel pat rep n (cs.drop (pat.length - 1))
    else
      c :: replaceFuel pat rep n cs

def pyReplace (pat rep l : Str) : Str := replaceFuel pat rep l.length l

/-- Python `line.split(sep, 1)` unpacked into two variables: `none` models
the `ValueError` raised when `sep` does not occur in the string. -/
def pySplitOnce (sep : Char) : Str → Option (Str × Str)
  | [] => none
  | c :: cs =>
    if c = sep then some ([], cs)
    else
      match pySplitOnce sep cs with
      | some (a, b) => some (c :: a, b)
      | none => none

/-- Python substring containment `pat in l`. -/
def hasSubstr (pat : Str) : Str → Bool
  | [] => pat.isEmpty
  | c :: cs => pat.isPrefixOf (c :: cs) || hasSubstr pat cs

def settingsFileName : Str := "settings.txt".data

def unzipBatName : Str := "unzip_file.bat".data

def downloadKey : Str := "download_dir".data

def bakkesmodKey : Str := "bakkesmod_dir".data

def dirToken : Str := "_dir".data

def rocketPat : Str := "RocketPlugin_".data

def zipSuffix : Str := ".zip".data

def pathSep : Char := '\\'

/-- The global `settings` dict: exactly the two keys `download_dir` and
`bakkesmod_dir` (lines 31-32), holding directory path strings. -/
structure Settings where
  download_dir : Str
  bakkesmod_dir : Str
deriving DecidableEq

/-- Dict lookup `settings[k]` for the two fixed keys. -/
def Settings.get (s : Settings) (k : Str) : Str :=
  if k = downloadKey then s.download_dir
  else if k = bakkesmodKey then s.bakkesmod_dir
  else []

/-- Dict update `settings[k] = v` for the two fixed keys. -/
def Settings.set (s : Settings) (k v : Str) : Settings :=
  if k = downloadKey then { s with download_dir := v }
  else if k = bakkesmodKey then { s with bakkesmod_dir := v }
  else s

/-- Python `setting in settings` (dict key membership, line 107). -/
def keyRecognized (k : Str) : Bool := k == downloadKey || k == bakkesmodKey

/-- `checkDependencies` (lines 62-81): returns `False` at the first missing
entry of `["settings.txt", "unzip_file.bat"]`; the subsequent loop over the
settings directories (lines 75-78) only logs warnings, so it cannot change
the returned value. -/
def checkDependencies (fs : Str → Bool) (_s : Settings) : Bool :=
  if !fs settingsFileName then false
  else if !fs unzipBatName then false
  else true

/-- Lines 104-106 of `loadSettings`: strip newline characters, skip blank
and comment lines, split the rest at the first `=`; `none` is the uncaught
`ValueError` of the two-variable unpacking of `split('=', 1)`. -/
def parseLine (line : Str) : Option (Option (Str × Str)) :=
  match pyReplace ['\n'] [] line with
  | [] => some none
  | c :: cs =>
    if c = '#' then some none
    else
      match pySplitOnce '=' (c :: cs) with
      | none => none
      | some kv => some (some kv)

/-- The `for line in contents` loop of `loadSettings` (lines 103-118),
threading the mutable `settings` dict through the iterations. -/
def loadLoop (fs : Str → Bool) : Settings → List Str → Except Unit (Bool × Settings)
  | s, [] => Except.ok (true, s)
  | s, line :: rest =>
    match parseLine line with
    | none => Except.error ()
    | some none => loadLoop fs s rest
    | some (some (k, v)) =>
      if keyRecognized k then
        if hasSubstr dirToken k then
          if fs v then loadLoop fs (s.set k v) rest
          else if !fs (s.get k) then Except.ok (false, s)
          else loadLoop fs s rest
        else loadLoop fs s rest
      else loadLoop fs s rest

/-- `loadSettings` (lines 84-121).  `fileLines` is what `readlines()` of
`settings.txt` yields when that file exists; `read` (lines 45-59) returns
`[]` otherwise.  On empty contents the two built-in defaults are checked in
dict insertion order (`download_dir` first). -/
def loadSettings (fs : Str → Bool) (defaults : Settings) (fileLines : List Str) :
    Except Unit (Bool × Settings) :=
  let contents := if fs settingsFileName then fileLines else []
  if contents.isEmpty then
    if !fs defaults.download_dir then Except.ok (false, defaults)
    else if !fs defaults.bakkesmod_dir then Except.ok (false, defaults)
    else Except.ok (true, defaults)
  else loadLoop fs defaults contents

/-- The `key=value` pairs of a configuration file whose key is one of the
two recognized keys, in file order. -/
def recognizedAssignments (lines : List Str) : List (Str × Str) :=
  lines.filterMap fun line =>
    match parseLine line with
    | some (some (k, v)) => if keyRecognized k then some (k, v) else none
    | _ => none

/-- Apply a list of assignments to the settings dict, left to right. -/
def applyAssigns (s : Settings) : List (Str × Str) → Settings
  | [] => s
  | (k, v) :: rest => applyAssigns (s.set k v) rest

/-- Whether a `loadSettings` outcome is a normal boolean return (as opposed
to an uncaught exception). -/
def isOkBool : Except Unit (Bool × Settings) → Bool
  | Except.ok _ => true
  | Except.error _ => false

/-- One evaluation of `glob.glob(f"{download_dir}\\*.zip")` (line 136): the
directory entries are `(filename, creation time)` pairs, and matches are
returned as full paths. -/
def globZips (dir : Str) (entries : List (Str × Nat)) : List (Str × Nat) :=
  (entries.filter fun e => zipSuffix.isSuffixOf e.1).map fun e => (dir ++ pathSep :: e.1, e.2)

/-- Python `max(files, key=os.path.getctime)` (line 137): folds over the
list keeping the first element whose key is maximal. -/
def pyMax (best : Str × Nat) : List (Str × Nat) → Str × Nat
  | [] => best
  | x :: xs => pyMax (if best.2 < x.2 then x else best) xs

/-- The file selected by one polling iteration, when the glob is nonempty. -/
def selectLatest (dir : Str) (entries : List (Str × Nat)) : Option (Str × Nat) :=
  match globZips dir entries with
  | [] => none
  | f :: rest => some (pyMax f rest)

/-- One iteration of the polling loop of `downloadPlugins` (lines 135-141):
`Except.error ()` models the `ValueError` of `max` on an empty sequence,
`Except.ok none` means the loop polls again, and `Except.ok (some
(filename, latest_file))` is the return at line 141. -/
def pollStep (dir : Str) (entries : List (Str × Nat)) : Except Unit (Option (Str × Str)) :=
  match globZips dir entries with
  | [] => Except.error ()
  | f :: rest =>
    let latest := pyMax f rest
    if hasSubstr rocketPat latest.1 then
      Except.ok (some (pyReplace (dir ++ [pathSep]) [] latest.1, latest.1))
    else
      Except.ok none

/-- Whether a polling iteration returns a file. -/
def accepted : Except Unit (Option (Str × Str)) → Bool
  | Except.ok (some _) => true
  | _ => false

/-- `unzipPlugins` (lines 144-159): if the target directory already exists
the function returns at once.  `runHelper` is the effect of the external
`unzip_file.bat` process on the file system; the first component of the
result records whether that process was started. -/
def unzipPlugins (runHelper : (Str → Bool) → Str → (Str → Bool))
    (fs : Str → Bool) (file_dir : Str) : Bool × (Str → Bool) :=
  if fs file_dir then (false, fs)
  else (true, runHelper fs file_dir)

/-- Line 252 of `GUI.main`: `file_dir = zipped_file_dir.replace('.zip', '')`. -/
def computeFileDir (zipped_file_dir : Str) : Str := pyReplace zipSuffix [] zipped_file_dir

/-- The specification's description of the same computation: the archive
path without its final extension (everything from the last dot onwards is
removed; a path without a dot is unchanged). -/
def stripFinalExtension (p : Str) : Str :=
  match p.reverse.dropWhile (fun c => !(c == '.')) with
  | [] => p
  | _ :: rest => rest.reverse

/-- User-visible events of a run of `GUI.main`. -/
inductive Event where
  | browserOpen
  | infoDialog
  | errorDialog
deriving DecidableEq

/-- Terminal states of a run of `GUI.main`. -/
inductive RunEnd where
  | succeeded
  | failed
  | crashed
  | hung
deriving DecidableEq

/-- Outcome of the `downloadPlugins` polling loop in one run: it can poll
forever, raise (empty glob on some iteration), or return a file. -/
inductive DlOutcome where
  | hangs
  | raisesErr
  | returnsFile
deriving DecidableEq

/-- Environment of one run of `GUI.main`: the file system consulted by
`checkDependencies` and `loadSettings`, the contents of `settings.txt`, and
the outcomes of the steps whose success depends on the outside world
(download polling, external unzip process, installer copies, cleanup
removals); for those steps `false` or `raisesErr` means an uncaught
exception in that step. -/
structure MainEnv where
  fs : Str → Bool
  defaults : Settings
  settingsLines : List Str
  dl : DlOutcome
  unzipOk : Bool
  updateOk : Bool
  cleanOk : Bool

def isDialog : Event → Bool
  | Event.infoDialog => true
  | Event.errorDialog => true
  | Event.browserOpen => false

/-- The modal dialogs appearing in an event trace. -/
def dialogsOf (t : List Event) : List Event := t.filter isDialog

/-- `GUI.main` (lines 227-267) as the trace of its user-visible events plus
the terminal state of the run.  Both failure branches emit two dialogs: the
step-specific `showerror` inside the loop (line 240 or 245) and the generic
`showerror` after it (line 265).  An exception in a later step propagates
out of the worker thread, so no dialog at all is shown (`crashed`).  The
browser navigation of `downloadPlugins` (line 133) is recorded as
`browserOpen`. -/
def guiMain (env : MainEnv) : List Event × RunEnd :=
  if checkDependencies env.fs env.defaults then
    match loadSettings env.fs env.defaults env.settingsLines with
    | Except.error _ => ([], RunEnd.crashed)
    | Except.ok (false, _) => ([Event.errorDialog, Event.errorDialog], RunEnd.failed)
    | Except.ok (true, _) =>
      match env.dl with
      | DlOutcome.hangs => ([Event.browserOpen], RunEnd.hung)
      | DlOutcome.raisesErr => ([Event.browserOpen], RunEnd.crashed)
      | DlOutcome.returnsFile =>
        if !env.unzipOk then ([Event.browserOpen], RunEnd.crashed)
        else if !env.updateOk then ([Event.browserOpen], RunEnd.crashed)
        else if !env.cleanOk then ([Event.browserOpen], RunEnd.crashed)
        else ([Event.browserOpen, Event.infoDialog], RunEnd.succeeded)
  else ([Event.errorDialog, Event.errorDialog], RunEnd.failed)

/-! Concrete inputs used by the witness and counterexample theorems below. -/

def fsAll : Str → Bool := fun _ => true

def fsNone : Str → Bool := fun _ => false

def demoDefaults : Settings := ⟨"C:\\DlDef".data, "C:\\BmDef".data⟩

def depsFsA : Str → Bool := fun p => p == settingsFileName || p == unzipBatName

def depsFsB : Str → Bool := fun p => p == settingsFileName || p == unzipBatName || p == "C:\\X".data

def demoDownloadDir : Str := "C:\\Users\\me\\Downloads".data

def demoEntries : List (Str × Nat) :=
  [("RocketPlugin_v1.zip".data, 1), ("RocketPlugin_v2.zip".data, 2)]

def demoLatest : Str × Nat := (demoDownloadDir ++ pathSep :: "RocketPlugin_v2.zip".data, 2)

def demoNoZips : List (Str × Nat) := [("notes.txt".data, 3), ("RocketPlugin_v1.rar".data, 9)]

def plainDemoDir : Str := "C:\\Plain".data

def rocketDemoDir : Str := "C:\\RocketPlugin_staging".data

def demoHelper : (Str → Bool) → Str → (Str → Bool) := fun fs d => fun p => p == d || fs p

def demoExtractedDir : Str := "C:\\Users\\me\\Downloads\\RocketPlugin_v2".data

def trickyArchivePath : Str := "C:\\my.zip.files\\RocketPlugin_v1.zip".data

def cleanArchiveStem : Str := "C:\\Users\\me\\Downloads\\RocketPlugin_v2".data

def demoFsDirs : Str → Bool := fun p =>
  p == settingsFileName || p == "C:\\Games\\Downloads".data || p == "C:\\Games\\bakkesmod".data

def demoConfigLines : List Str :=
  ["# config\n".data, "download_dir=C:\\Games\\Downloads\n".data,
    "bakkesmod_dir=C:\\Games\\bakkesmod\n".data]

def exnFs : Str → Bool := fun p => p == settingsFileName

def envDepsMissing : MainEnv :=
  ⟨fsNone, demoDefaults, [], DlOutcome.hangs, true, true, true⟩

def envAllGood : MainEnv :=
  ⟨fsAll, demoDefaults, [], DlOutcome.returnsFile, true, true, true⟩

/-! Auxiliary lemmas. -/

/-- The fuel argument of `replaceFuel` is irrelevant once it dominates the
length of the scanned list. -/
theorem replaceFuel_congr (pat rep : Str) :
    ∀ (n : Nat) (l : Str) (m : Nat), l.length ≤ n → l.length ≤ m →
      replaceFuel pat rep n l = replaceFuel pat rep m l := by
  intro n
  induction n with
  | zero =>
    intro l m h1 _
    cases l with
    | nil => cases m <;> rfl
    | cons c cs => simp at h1
  | succ k ih =>
    intro l m h1 h2
    cases l with
    | nil => cases m <;> rfl
    | cons c cs =>
      cases m with
      | zero => simp at h2
      | succ j =>
        simp only [replaceFuel]
        by_cases hc : pat ≠ [] ∧ pat.isPrefixOf (c :: cs) = true
        · rw [if_pos hc, if_pos hc]
          have hlen : (cs.drop (pat.length - 1)).length ≤ cs.length := by
            rw [List.length_drop]; omega
          have hcs : cs.length ≤ k := by simpa using Nat.lt_succ_iff.mp (Nat.lt_of_lt_of_le (Nat.lt_succ_of_le (Nat.le_refl _)) h1)
          have hcs2 : cs.length ≤ j := by simpa using h2
          exact congrArg (rep ++ ·) (ih _ _ (Nat.le_trans hlen hcs) (Nat.le_trans hlen hcs2))
        · rw [if_neg hc, if_neg hc]
          have hcs : cs.length ≤ k := by simpa using h1
          have hcs2 : cs.length ≤ j := by simpa using h2
          exact congrArg (c :: ·) (ih _ _ hcs hcs2)

theorem pyReplace_nil (pat rep : Str) : pyReplace pat rep [] = [] := rfl

theorem pyReplace_cons_pos (pat rep : Str) (c : Char) (cs : Str)
    (h : pat ≠ [] ∧ pat.isPrefixOf (c :: cs) = true) :
    pyReplace pat rep (c :: cs) = rep ++ pyReplace pat rep (cs.drop (pat.length - 1)) := by
  unfold pyReplace
  simp only [List.length_cons, replaceFuel, if_pos h]
  have hld := List.length_drop (pat.length - 1) cs
  refine congrArg (rep ++ ·) (replaceFuel_congr pat rep _ _ _ ?_ ?_) <;> omega

theorem pyReplace_cons_neg (pat rep : Str) (c : Char) (cs : Str)
    (h : ¬(pat ≠ [] ∧ pat.isPrefixOf (c :: cs) = true)) :
    pyReplace pat rep (c :: cs) = c :: pyReplace pat rep cs := by
  unfold pyReplace
  simp only [List.length_cons, replaceFuel, if_neg h]

/-- Replacing a single character that does not occur leaves the string
unchanged. -/
theorem pyReplace_single_of_notMem (p : Char) (rep : Str) :
    ∀ l : Str, p ∉ l → pyReplace [p] rep l = l := by
  intro l
  induction l with
  | nil => intro _; rfl
  | cons c cs ih =>
    intro h
    have hc : ¬(c = p) := fun hcp => h (by simp [hcp])
    have hcs : p ∉ cs := fun hmem => h (List.mem_cons_of_mem _ hmem)
    rw [pyReplace_cons_neg, ih hcs]
    intro hcontra
    have hpc := hcontra.2
    simp [List.isPrefixOf] at hpc
    exact hc hpc.symm

/-- The pattern `".zip"` has no nontrivial border, so it cannot start
inside `c :: s` and end inside an appended copy of itself: if it is not a
prefix of `c :: s`, it is not a prefix of `c :: (s ++ ".zip")` either. -/
theorem zipSuffix_not_pre_boundary (c : Char) (s : Str)
    (h : zipSuffix.isPrefixOf (c :: s) = false) :
    zipSuffix.isPrefixOf (c :: (s ++ zipSuffix)) = false := by
  match s with
  | [] =>
    simp only [zipSuffix, List.isPrefixOf, List.nil_append]
    cases hc : ('.' == c) <;> simp [String.data]
  | [a] =>
    simp only [zipSuffix, List.isPrefixOf, List.cons_append, List.nil_append]
    cases hc : ('.' == c) <;> cases ha : ('z' == a) <;> simp [String.data]
  | [a, b] =>
    simp only [zipSuffix, List.isPrefixOf, List.cons_append, List.nil_append]
    cases hc : ('.' == c) <;> cases ha : ('z' == a) <;> cases hb : ('i' == b) <;> simp [String.data]
  | a :: b :: d :: rest =>
    simp only [zipSuffix, List.isPrefixOf, List.cons_append, Bool.and_eq_false_iff] at h ⊢
    simpa using h

/-- Appending `".zip"` to a string in which `".zip"` does not occur and
removing all occurrences recovers the original string. -/
theorem pyReplace_zip_append :
    ∀ s : Str, hasSubstr zipSuffix s = false →
      pyReplace zipSuffix [] (s ++ zipSuffix) = s := by
  intro s
  induction s with
  | nil => intro _; decide
  | cons c cs ih =>
    intro h
    have h1 : zipSuffix.isPrefixOf (c :: cs) = false ∧ hasSubstr zipSuffix cs = false := by
      simpa [hasSubstr, Bool.or_eq_false_iff] using h
    have hb := zipSuffix_not_pre_boundary c cs h1.1
    rw [List.cons_append, pyReplace_cons_neg, ih h1.2]
    intro hcontra
    rw [hb] at hcontra
    exact Bool.false_ne_true hcontra.2

theorem stripFinalExtension_zip (s : Str) :
    stripFinalExtension (s ++ zipSuffix) = s := by
  have h : (s ++ zipSuffix).reverse.dropWhile (fun c => !(c == '.')) = '.' :: s.reverse := by
    rw [List.reverse_append, show zipSuffix.reverse = ['p', 'i', 'z', '.'] from rfl]
    rw [List.cons_append, List.cons_append, List.cons_append, List.cons_append, List.nil_append]
    rw [List.dropWhile_cons, if_pos (by decide)]
    rw [List.dropWhile_cons, if_pos (by decide)]
    rw [List.dropWhile_cons, if_pos (by decide)]
    rw [List.dropWhile_cons, if_neg (by decide)]
  unfold stripFinalExtension
  rw [h]
  exact List.reverse_reverse s

/-- A prefix test survives appending on the right. -/
theorem isPrefixOf_extend (pat : Str) :
    ∀ (l t : Str), pat.isPrefixOf l = true → pat.isPrefixOf (l ++ t) = true := by
  induction pat with
  | nil => intro l t _; simp [List.isPrefixOf]
  | cons a as ih =>
    intro l t h
    cases l with
    | nil => simp [List.isPrefixOf] at h
    | cons b bs =>
      simp only [List.isPrefixOf, Bool.and_eq_true] at h
      simp only [List.cons_append, List.isPrefixOf, Bool.and_eq_true]
      exact ⟨h.1, ih bs t h.2⟩

/-- If `pat` is a prefix of `t`, then `pat` occurs in `s ++ t`. -/
theorem hasSubstr_append_pre (pat t : Str) (hp : pat.isPrefixOf t = true) :
    ∀ s : Str, hasSubstr pat (s ++ t) = true := by
  intro s
  induction s with
  | nil =>
    cases t with
    | nil =>
      cases pat with
      | nil => rfl
      | cons a as => simp [List.isPrefixOf] at hp
    | cons c cs => simp [hasSubstr, hp]
  | cons c cs ih =>
    simp [List.cons_append, hasSubstr, ih]

/-- An occurrence of `pat` in `s` is still an occurrence in `s ++ t`. -/
theorem hasSubstr_append_ext (pat : Str) :
    ∀ (s t : Str), hasSubstr pat s = true → hasSubstr pat (s ++ t) = true := by
  intro s
  induction s with
  | nil =>
    intro t h
    have hp : pat = [] := by simpa [hasSubstr, List.isEmpty_iff] using h
    subst hp
    cases t <;> simp [hasSubstr, List.isPrefixOf]
  | cons c cs ih =>
    intro t h
    simp only [hasSubstr, Bool.or_eq_true] at h
    rcases h with h | h
    · have := isPrefixOf_extend pat (c :: cs) t h
      simp only [List.cons_append] at this ⊢
      simp [hasSubstr, this]
    · simp [List.cons_append, hasSubstr, ih t h]

/-- `pyMax` returns either its accumulator or a list element, and its key
dominates the accumulator's key and every element's key. -/
theorem pyMax_spec :
    ∀ (xs : List (Str × Nat)) (b : Str × Nat),
      (pyMax b xs = b ∨ pyMax b xs ∈ xs) ∧
      b.2 ≤ (pyMax b xs).2 ∧ ∀ x ∈ xs, x.2 ≤ (pyMax b xs).2 := by
  intro xs
  induction xs with
  | nil => intro b; simp [pyMax]
  | cons x xs ih =>
    intro b
    simp only [pyMax]
    obtain ⟨hmem, hacc, hall⟩ := ih (if b.2 < x.2 then x else b)
    refine ⟨?_, ?_, ?_⟩
    · rcases hmem with h | h
      · rw [h]
        by_cases hx : b.2 < x.2
        · rw [if_pos hx]; right; exact List.mem_cons_self x xs
        · rw [if_neg hx]; left; rfl
      · right; exact List.mem_cons_of_mem x h
    · refine Nat.le_trans ?_ hacc
      by_cases hx : b.2 < x.2
      · rw [if_pos hx]; omega
      · rw [if_neg hx]
    · intro y hy
      rcases List.mem_cons.mp hy with h | h
      · rw [h]
        refine Nat.le_trans ?_ hacc
        by_cases hx : b.2 < x.2
        · rw [if_pos hx]
        · rw [if_neg hx]; omega
      · exact hall y h

/-- `pySplitOnce` at the first occurrence of the separator. -/
theorem pySplitOnce_append (sep : Char) :
    ∀ (pre suf : Str), sep ∉ pre →
      pySplitOnce sep (pre ++ sep :: suf) = some (pre, suf) := by
  intro pre
  induction pre with
  | nil => intro suf _; simp [pySplitOnce]
  | cons c cs ih =>
    intro suf h
    have hc : ¬(c = sep) := fun hcs => h (by simp [hcs])
    have hcs : sep ∉ cs := fun hmem => h (List.mem_cons_of_mem _ hmem)
    simp only [List.cons_append, pySplitOnce, if_neg hc]
    rw [List.append_eq, ih suf hcs]

theorem keyRecognized_cases {k : Str} (h : keyRecognized k = true) :
    k = downloadKey ∨ k = bakkesmodKey := by
  simpa [keyRecognized, Bool.or_eq_true, beq_iff_eq] using h

theorem hasSubstr_dir_of_recognized {k : Str} (h : keyRecognized k = true) :
    hasSubstr dirToken k = true := by
  rcases keyRecognized_cases h with h | h <;> subst h <;> decide

theorem set_downloadKey (s : Settings) (v : Str) :
    s.set downloadKey v = { s with download_dir := v } := by
  unfold Settings.set
  rw [if_pos rfl]

theorem set_bakkesmodKey (s : Settings) (v : Str) :
    s.set bakkesmodKey v = { s with bakkesmod_dir := v } := by
  unfold Settings.set
  rw [if_neg (by decide), if_pos rfl]

theorem get_bakkesmodKey (s : Settings) : s.get bakkesmodKey = s.bakkesmod_dir := by
  unfold Settings.get
  rw [if_neg (by decide), if_pos rfl]

/-- When every line parses and every recognized assignment names an
existing directory, the settings loop succeeds and its final state applies
the recognized assignments in order. -/
theorem loadLoop_ok (fs : Str → Bool) :
    ∀ (lines : List Str) (s : Settings),
      (lines.all fun l => (parseLine l).isSome) = true →
      ((recognizedAssignments lines).all fun kv => fs kv.2) = true →
      loadLoop fs s lines = Except.ok (true, applyAssigns s (recognizedAssignments lines)) := by
  intro lines
  induction lines with
  | nil => intro s _ _; simp [loadLoop, recognizedAssignments, applyAssigns]
  | cons line rest ih =>
    intro s hwf hex
    rw [List.all_cons, Bool.and_eq_true] at hwf
    cases hp : parseLine line with
    | none => rw [hp] at hwf; simp at hwf
    | some kv =>
      cases kv with
      | none =>
        have hrec : recognizedAssignments (line :: rest) = recognizedAssignments rest := by
          simp [recognizedAssignments, List.filterMap_cons, hp]
        rw [hrec] at hex ⊢
        simp only [loadLoop, hp]
        exact ih s hwf.2 hex
      | some kvp =>
        obtain ⟨k, v⟩ := kvp
        cases hk : keyRecognized k with
        | false =>
          have hrec : recognizedAssignments (line :: rest) = recognizedAssignments rest := by
            simp [recognizedAssignments, List.filterMap_cons, hp, hk]
          rw [hrec] at hex ⊢
          simp only [loadLoop, hp, hk, Bool.false_eq_true, if_false]
          exact ih s hwf.2 hex
        | true =>
          have hrec : recognizedAssignments (line :: rest) = (k, v) :: recognizedAssignments rest := by
            simp [recognizedAssignments, List.filterMap_cons, hp, hk]
          rw [hrec] at hex ⊢
          rw [List.all_cons, Bool.and_eq_true] at hex
          have hfv : fs v = true := hex.1
          simp only [loadLoop, hp, hk, if_true, hasSubstr_dir_of_recognized hk, hfv,
            applyAssigns]
          exact ih (s.set k v) hwf.2 hex.2

/-- When every line parses, the settings loop terminates with a boolean
(never an exception). -/
theorem loadLoop_total (fs : Str → Bool) :
    ∀ (lines : List Str) (s : Settings),
      (lines.all fun l => (parseLine l).isSome) = true →
      isOkBool (loadLoop fs s lines) = true := by
  intro lines
  induction lines with
  | nil => intro s _; simp [loadLoop, isOkBool]
  | cons line rest ih =>
    intro s hwf
    rw [List.all_cons, Bool.and_eq_true] at hwf
    cases hp : parseLine line with
    | none => rw [hp] at hwf; simp at hwf
    | some kv =>
      cases kv with
      | none =>
        simp only [loadLoop, hp]
        exact ih s hwf.2
      | some kvp =>
        obtain ⟨k, v⟩ := kvp
        simp only [loadLoop, hp]
        by_cases hk : keyRecognized k = true
        · rw [if_pos hk]
          by_cases hdir : hasSubstr dirToken k = true
          · rw [if_pos hdir]
            by_cases hfv : fs v = true
            · rw [if_pos hfv]; exact ih _ hwf.2
            · rw [if_neg hfv]
              by_cases hdef : fs (s.get k) = true
              · have : (!fs (s.get k)) = false := by simp [hdef]
                rw [if_neg (by simp [this])]
                exact ih s hwf.2
              · have hfalse : fs (s.get k) = false := by simpa using hdef
                rw [if_pos (by simp [hfalse])]
                simp [isOkBool]
          · rw [if_neg hdir]; exact ih s hwf.2
        · rw [if_neg hk]; exact ih s hwf.2

/-- Parsing a well-formed assignment line whose key is newline-free,
`=`-free, nonempty and does not start with `#`. -/
theorem parseLine_assign (k v : Str) (c : Char) (cs : Str)
    (hk : k = c :: cs) (hc : ¬(c = '#')) (hnl : '\n' ∉ k ++ '=' :: v) (heq : '=' ∉ k) :
    parseLine (k ++ '=' :: v) = some (some (k, v)) := by
  unfold parseLine
  rw [pyReplace_single_of_notMem '\n' [] _ hnl, hk, List.cons_append]
  dsimp only
  rw [if_neg hc, ← List.cons_append, ← hk, pySplitOnce_append '=' k v heq]

/-- When the target directory exists, `unzipPlugins` starts no helper
process and leaves the file system untouched. -/
theorem unzip_skip (runHelper : (Str → Bool) → Str → (Str → Bool))
    (fs : Str → Bool) (d : Str) (h : fs d = true) :
    unzipPlugins runHelper fs d = (false, fs) := by
  unfold unzipPlugins
  rw [if_pos h]

/-- Every element of a glob result is the directory joined to an entry name. -/
theorem globZips_shape (dir : Str) (entries : List (Str × Nat)) :
    ∀ f ∈ globZips dir entries, ∃ name ct, f = (dir ++ pathSep :: name, ct) := by
  intro f hf
  unfold globZips at hf
  rcases List.mem_map.mp hf with ⟨e, _, rfl⟩
  exact ⟨e.1, e.2, rfl⟩

/-- Every run of `GUI.main` ends in one of five concrete trace shapes. -/
theorem guiMain_cases (env : MainEnv) :
    guiMain env = ([Event.errorDialog, Event.errorDialog], RunEnd.failed) ∨
    guiMain env = ([], RunEnd.crashed) ∨
    guiMain env = ([Event.browserOpen], RunEnd.hung) ∨
    guiMain env = ([Event.browserOpen], RunEnd.crashed) ∨
    guiMain env = ([Event.browserOpen, Event.infoDialog], RunEnd.succeeded) := by
  unfold guiMain
  by_cases hc : checkDependencies env.fs env.defaults = true
  · rw [if_pos hc]
    cases hl : loadSettings env.fs env.defaults env.settingsLines with
    | error e => simp
    | ok p =>
      obtain ⟨b, s⟩ := p
      cases b
      · simp
      · cases env.dl
        · simp
        · simp
        · cases env.unzipOk <;> cases env.updateOk <;> cases env.cleanOk <;> simp
  · rw [if_neg hc]
    simp

/-! The claims. -/

/-- Claim C1: over a configuration file whose lines all parse and whose
recognized assignments are exactly one existing path for each of the two
directory keys, `loadSettings` returns `True` with the settings dict
holding the configured values; and a configuration assigning
`bakkesmod_dir` a nonexistent path while the built-in default is also
nonexistent makes `loadSettings` return `False`. -/
theorem loadSettings_claim :
    (∀ (fs : Str → Bool) (defaults : Settings) (lines : List Str) (dD dB : Str),
      fs settingsFileName = true →
      lines ≠ [] →
      (lines.all fun l => (parseLine l).isSome) = true →
      (recognizedAssignments lines = [(downloadKey, dD), (bakkesmodKey, dB)] ∨
        recognizedAssignments lines = [(bakkesmodKey, dB), (downloadKey, dD)]) →
      fs dD = true → fs dB = true →
      loadSettings fs defaults lines = Except.ok (true, ⟨dD, dB⟩)) ∧
    (∀ (fs : Str → Bool) (defaults : Settings) (v : Str),
      fs settingsFileName = true →
      '\n' ∉ v →
      fs v = false →
      fs defaults.bakkesmod_dir = false →
      loadSettings fs defaults [bakkesmodKey ++ '=' :: v] = Except.ok (false, defaults)) := by
  constructor
  · intro fs defaults lines dD dB hfs hne hwf hassign hdD hdB
    have hex : ((recognizedAssignments lines).all fun kv => fs kv.2) = true := by
      rcases hassign with h | h <;> rw [h] <;> simp [hdD, hdB]
    unfold loadSettings
    rw [hfs]
    dsimp only
    rw [if_pos rfl]
    rw [if_neg (by simpa [List.isEmpty_iff] using hne)]
    rw [loadLoop_ok fs lines defaults hwf hex]
    rcases hassign with h | h <;>
      rw [h] <;>
      simp only [applyAssigns, set_downloadKey, set_bakkesmodKey]
  · intro fs defaults v hfs hnl hv hdef
    have hnlLine : '\n' ∉ bakkesmodKey ++ '=' :: v := by
      intro hmem
      rcases List.mem_append.mp hmem with h | h
      · exact absurd h (by decide)
      · rcases List.mem_cons.mp h with h | h
        · exact absurd h (by decide)
        · exact hnl h
    have hparse : parseLine (bakkesmodKey ++ '=' :: v) = some (some (bakkesmodKey, v)) :=
      parseLine_assign bakkesmodKey v 'b' "akkesmod_dir".data rfl (by decide) hnlLine (by decide)
    unfold loadSettings
    rw [hfs]
    dsimp only
    rw [if_pos rfl]
    rw [if_neg (by simp [List.isEmpty_iff])]
    simp only [loadLoop, hparse]
    rw [if_pos (show keyRecognized bakkesmodKey = true by decide)]
    rw [if_pos (show hasSubstr dirToken bakkesmodKey = true by decide)]
    rw [if_neg (by simp [hv]), if_pos (by simp [get_bakkesmodKey, hdef])]

theorem loadSettings_claim_witness :
    (demoConfigLines.all fun l => (parseLine l).isSome) = true ∧
    loadSettings demoFsDirs demoDefaults demoConfigLines =
      Except.ok (true, ⟨"C:\\Games\\Downloads".data, "C:\\Games\\bakkesmod".data⟩) ∧
    loadSettings exnFs demoDefaults [bakkesmodKey ++ '=' :: "C:\\Nope".data] =
      Except.ok (false, demoDefaults) :=
  ⟨by decide,
   loadSettings_claim.1 demoFsDirs demoDefaults demoConfigLines _ _ (by decide) (by decide)
     (by decide) (Or.inl (by decide)) (by decide) (by decide),
   loadSettings_claim.2 exnFs demoDefaults "C:\\Nope".data (by decide) (by decide) (by decide)
     (by decide)⟩

/-- Claim C2: `checkDependencies` returns `false` exactly when `settings.txt`
or `unzip_file.bat` is missing at the run location; its result does not
depend on the settings directory values, whose nonexistence only produces a
warning. -/
theorem checkDependencies_claim :
    (∀ (fs : Str → Bool) (s : Settings),
      checkDependencies fs s = false ↔
        (fs settingsFileName = false ∨ fs unzipBatName = false)) ∧
    (∀ (fs fs' : Str → Bool) (s s' : Settings),
      fs settingsFileName = fs' settingsFileName →
      fs unzipBatName = fs' unzipBatName →
      checkDependencies fs s = checkDependencies fs' s') := by
  constructor
  · intro fs s
    unfold checkDependencies
    cases h1 : fs settingsFileName <;> cases h2 : fs unzipBatName <;> simp
  · intro fs fs' s s' h1 h2
    unfold checkDependencies
    rw [h1, h2]

theorem checkDependencies_claim_witness :
    depsFsA settingsFileName = depsFsB settingsFileName ∧
    checkDependencies depsFsA ⟨"C:\\X".data, "C:\\Y".data⟩ =
      checkDependencies depsFsB ⟨"C:\\Q".data, "C:\\R".data⟩ :=
  ⟨by decide, checkDependencies_claim.2 depsFsA depsFsB _ _ (by decide) (by decide)⟩

/-- Claim C3: each polling iteration selects the zip file with the
greatest creation time among the glob results, and returns exactly that
file when its name starts with `RocketPlugin_`; in particular, with
`RocketPlugin_v1.zip` older and `RocketPlugin_v2.zip` newer in the
download directory, `RocketPlugin_v2.zip` is returned. -/
theorem downloadSelect_claim :
    (∀ (dir : Str) (entries : List (Str × Nat)) (lat : Str × Nat),
      selectLatest dir entries = some lat →
        (∀ f ∈ globZips dir entries, f.2 ≤ lat.2) ∧
        (∀ name : Str, rocketPat.isPrefixOf name = true →
          lat.1 = dir ++ pathSep :: name →
          pollStep dir entries =
            Except.ok (some (pyReplace (dir ++ [pathSep]) [] lat.1, lat.1)))) ∧
    pollStep demoDownloadDir demoEntries =
      Except.ok (some ("RocketPlugin_v2.zip".data,
        demoDownloadDir ++ pathSep :: "RocketPlugin_v2.zip".data)) := by
  refine ⟨?_, rfl⟩
  intro dir entries lat hsel
  unfold selectLatest at hsel
  cases hg : globZips dir entries with
  | nil => rw [hg] at hsel; simp at hsel
  | cons f rest =>
    rw [hg] at hsel
    dsimp only at hsel
    have hlat : pyMax f rest = lat := by
      exact Option.some.inj hsel
    obtain ⟨_, hacc, hall⟩ := pyMax_spec rest f
    constructor
    · intro f' hf'
      rw [← hlat]
      rcases List.mem_cons.mp hf' with h | h
      · rw [h]; exact hacc
      · exact hall f' h
    · intro name hpre hpath
      have hsub : hasSubstr rocketPat lat.1 = true := by
        rw [hpath, List.append_cons]
        exact hasSubstr_append_pre rocketPat name hpre (dir ++ [pathSep])
      unfold pollStep
      rw [hg]
      dsimp only
      rw [hlat, if_pos hsub]

theorem downloadSelect_claim_witness :
    selectLatest demoDownloadDir demoEntries = some demoLatest ∧
    pollStep demoDownloadDir demoEntries =
      Except.ok (some (pyReplace (demoDownloadDir ++ [pathSep]) [] demoLatest.1, demoLatest.1)) :=
  ⟨by decide,
   (downloadSelect_claim.1 demoDownloadDir demoEntries demoLatest (by decide)).2
     "RocketPlugin_v2.zip".data (by decide) (by decide)⟩

/-- Claim C4: the extractor is idempotent — if the target extraction
directory already exists (in particular after a first call whose resulting
file system has it), a second call performs no extraction work (the helper
process is not started) and returns without error. -/
theorem unzipIdem_claim :
    (∀ (runHelper : (Str → Bool) → Str → (Str → Bool)) (fs : Str → Bool) (d : Str),
      fs d = true → unzipPlugins runHelper fs d = (false, fs)) ∧
    (∀ (runHelper : (Str → Bool) → Str → (Str → Bool)) (fs : Str → Bool) (d : Str),
      (unzipPlugins runHelper fs d).2 d = true →
      unzipPlugins runHelper (unzipPlugins runHelper fs d).2 d =
        (false, (unzipPlugins runHelper fs d).2)) :=
  ⟨fun rh fs' d h => unzip_skip rh fs' d h,
   fun rh _fs d h => unzip_skip rh _ d h⟩

theorem unzipIdem_claim_witness :
    fsAll demoExtractedDir = true ∧
    unzipPlugins demoHelper fsAll demoExtractedDir = (false, fsAll) :=
  ⟨by decide, unzipIdem_claim.1 demoHelper fsAll demoExtractedDir (by decide)⟩

/-- Claim C5 counterexample: on an archive path that contains `".zip"` also
before the final extension, line 252 removes every occurrence, so the
computed directory differs from the path with only its final extension
removed. -/
theorem computeFileDir_counterexample :
    computeFileDir trickyArchivePath = "C:\\my.files\\RocketPlugin_v1".data ∧
    stripFinalExtension trickyArchivePath = "C:\\my.zip.files\\RocketPlugin_v1".data ∧
    ¬computeFileDir trickyArchivePath = stripFinalExtension trickyArchivePath :=
  ⟨by decide, by decide, by decide⟩

/-- Claim C5 (amended): the target directory is the archive path with every
occurrence of `".zip"` removed; when `".zip"` occurs only as the final
extension, this coincides with removing the final extension. -/
theorem computeFileDir_amended (s : Str) (h : hasSubstr zipSuffix s = false) :
    computeFileDir (s ++ zipSuffix) = stripFinalExtension (s ++ zipSuffix) := by
  unfold computeFileDir
  rw [pyReplace_zip_append s h, stripFinalExtension_zip]

theorem computeFileDir_amended_witness :
    hasSubstr zipSuffix cleanArchiveStem = false ∧
    computeFileDir (cleanArchiveStem ++ zipSuffix) =
      stripFinalExtension (cleanArchiveStem ++ zipSuffix) :=
  ⟨by decide, computeFileDir_amended cleanArchiveStem (by decide)⟩

/-- Claim C6 counterexample: with `settings.txt` present and containing the
single line `garbage` (non-empty, not a comment, no `=`), `loadSettings`
raises `ValueError` from the unpacking at line 106 instead of returning a
boolean. -/
theorem loadSettings_exn_counterexample :
    loadSettings exnFs demoDefaults ["garbage".data] = Except.error () ∧
    isOkBool (loadSettings exnFs demoDefaults ["garbage".data]) = false :=
  ⟨rfl, rfl⟩

/-- Claim C6 (amended): `loadSettings` returns a boolean — rather than
raising — for every configuration file whose non-empty, non-comment lines
all contain an `=`; a line without `=` raises an uncaught `ValueError`. -/
theorem loadSettings_total (fs : Str → Bool) (defaults : Settings) (lines : List Str)
    (hwf : (lines.all fun l => (parseLine l).isSome) = true) :
    isOkBool (loadSettings fs defaults lines) = true := by
  unfold loadSettings
  cases hfs : fs settingsFileName with
  | false =>
    rw [if_pos (by simp)]
    split_ifs <;> rfl
  | true =>
    rw [if_pos rfl]
    dsimp only
    cases hl : lines.isEmpty with
    | true =>
      rw [if_pos rfl]
      split_ifs <;> rfl
    | false =>
      rw [if_neg (by simp)]
      exact loadLoop_total fs lines defaults hwf

theorem loadSettings_total_witness :
    (demoConfigLines.all fun l => (parseLine l).isSome) = true ∧
    isOkBool (loadSettings exnFs demoDefaults demoConfigLines) = true :=
  ⟨by decide, loadSettings_total exnFs demoDefaults demoConfigLines (by decide)⟩

/-- Claim C7 counterexample: a run whose dependency check fails reaches
`Failed` but shows two modal dialogs (the specific and the generic error
dialog), not exactly one. -/
theorem guiMain_two_dialogs_counterexample :
    (guiMain envDepsMissing).2 = RunEnd.failed ∧
    dialogsOf (guiMain envDepsMissing).1 = [Event.errorDialog, Event.errorDialog] ∧
    ¬(dialogsOf (guiMain envDepsMissing).1).length = 1 :=
  ⟨by decide, by decide, by decide⟩

/-- Claim C7 (amended): a run reaching `Succeeded` shows exactly one dialog
(the success dialog); a run reaching `Failed` shows exactly two dialogs,
both error dialogs (the step-specific one, then the generic one); no run
shows both a success and an error dialog. -/
theorem guiMain_dialogs (env : MainEnv) :
    ((guiMain env).2 = RunEnd.succeeded → dialogsOf (guiMain env).1 = [Event.infoDialog]) ∧
    ((guiMain env).2 = RunEnd.failed →
      dialogsOf (guiMain env).1 = [Event.errorDialog, Event.errorDialog]) ∧
    (Event.infoDialog ∈ (guiMain env).1 → Event.errorDialog ∉ (guiMain env).1) := by
  rcases guiMain_cases env with h | h | h | h | h <;> rw [h] <;>
    exact ⟨by decide, by decide, by decide⟩

theorem guiMain_dialogs_witness :
    (guiMain envAllGood).2 = RunEnd.succeeded ∧
    dialogsOf (guiMain envAllGood).1 = [Event.infoDialog] ∧
    (guiMain envDepsMissing).2 = RunEnd.failed ∧
    dialogsOf (guiMain envDepsMissing).1 = [Event.errorDialog, Event.errorDialog] :=
  ⟨by decide, (guiMain_dialogs envAllGood).1 (by decide), by decide,
    (guiMain_dialogs envDepsMissing).2.1 (by decide)⟩

/-- Claim C8: when the dependency check fails, the run reaches `Failed`
having shown only the two error dialogs, without opening the browser (no
download step, hence no polling) and without reaching any later step. -/
theorem depsAbort_claim (env : MainEnv)
    (h : checkDependencies env.fs env.defaults = false) :
    guiMain env = ([Event.errorDialog, Event.errorDialog], RunEnd.failed) ∧
    Event.browserOpen ∉ (guiMain env).1 := by
  have hg : guiMain env = ([Event.errorDialog, Event.errorDialog], RunEnd.failed) := by
    unfold guiMain
    rw [if_neg (by simp [h])]
  exact ⟨hg, by rw [hg]; decide⟩

theorem depsAbort_claim_witness :
    checkDependencies envDepsMissing.fs envDepsMissing.defaults = false ∧
    guiMain envDepsMissing = ([Event.errorDialog, Event.errorDialog], RunEnd.failed) ∧
    Event.browserOpen ∉ (guiMain envDepsMissing).1 :=
  ⟨by decide, (depsAbort_claim envDepsMissing (by decide)).1,
    (depsAbort_claim envDepsMissing (by decide)).2⟩

/-- Claim C9: a polling iteration over a download directory with no `.zip`
entries raises (Python `max` on an empty sequence) instead of polling on. -/
theorem emptyPoll_claim (dir : Str) (entries : List (Str × Nat))
    (h : (entries.all fun e => !zipSuffix.isSuffixOf e.1) = true) :
    pollStep dir entries = Except.error () := by
  have hg : globZips dir entries = [] := by
    unfold globZips
    have : entries.filter (fun e => zipSuffix.isSuffixOf e.1) = [] := by
      rw [List.filter_eq_nil_iff]
      intro e he
      have hne := List.all_eq_true.mp h e he
      rw [Bool.not_eq_true'] at hne
      simp [hne]
    rw [this, List.map_nil]
  unfold pollStep
  rw [hg]

theorem emptyPoll_claim_witness :
    (demoNoZips.all fun e => !zipSuffix.isSuffixOf e.1) = true ∧
    pollStep demoDownloadDir demoNoZips = Except.error () :=
  ⟨by decide, emptyPoll_claim demoDownloadDir demoNoZips (by decide)⟩

/-- Claim C10: acceptance at line 138 is substring containment of
`RocketPlugin_` in the full path of the newest zip: a name containing the
marker anywhere is accepted, and a download directory containing the marker
makes every zip accepted. -/
theorem substrAccept_claim :
    (∀ (dir : Str) (entries : List (Str × Nat)),
      hasSubstr rocketPat dir = true →
      globZips dir entries ≠ [] →
      accepted (pollStep dir entries) = true) ∧
    accepted (pollStep plainDemoDir [("my_RocketPlugin_copy.zip".data, 5)]) = true ∧
    accepted (pollStep rocketDemoDir [("other.zip".data, 1)]) = true := by
  refine ⟨?_, by decide, by decide⟩
  intro dir entries hdir hne
  cases hg : globZips dir entries with
  | nil => exact absurd hg hne
  | cons f rest =>
    have hmem : pyMax f rest ∈ f :: rest := by
      rcases (pyMax_spec rest f).1 with h | h
      · rw [h]; exact List.mem_cons_self f rest
      · exact List.mem_cons_of_mem f h
    rw [← hg] at hmem
    rcases globZips_shape dir entries _ hmem with ⟨name, ct, hshape⟩
    have hsub : hasSubstr rocketPat (pyMax f rest).1 = true := by
      rw [hshape]
      exact hasSubstr_append_ext rocketPat dir (pathSep :: name) hdir
    unfold pollStep
    rw [hg]
    dsimp only
    rw [if_pos hsub]
    rfl

theorem substrAccept_claim_witness :
    hasSubstr rocketPat rocketDemoDir = true ∧
    accepted (pollStep rocketDemoDir [("another.zip".data, 7)]) = true :=
  ⟨by decide, substrAccept_claim.1 rocketDemoDir [("another.zip".data, 7)] (by decide) (by decide)⟩
